import Mathlib

/-!
Verification of the retake-cut pipeline (workers/media).

Shallow embedding of the pure algorithmic core of
`src/workers/media/utils/llm_cuts.py`,
`src/workers/media/utils/transcription.py` and
`src/workers/media/utils/vad_processor.py`.

Python floats are modelled as exact rationals (`ℚ`); Python dicts used as
records are modelled as structures whose fields are exactly the keys the
module puts in them; Python list indexing that the source guards with an
explicit bound check is modelled with `getD`/`headD` against a default
element (the guard makes the default unreachable); where a claim is about
a Python exception being impossible, an `Option`-valued twin of the
definition returns `none` exactly where the source could raise.
-/

set_option allowUnsafeReducibility true
attribute [semireducible] Rat.add Rat.mul Rat.inv Rat.sub Rat.ofScientific

namespace VibeWorkflow

/-- A transcript word, `{word, start, end}`, as produced by
`transcribe_with_whisper` (`transcription.py`). -/
structure TranscriptWord where
  word : String
  start : ℚ
  «end» : ℚ
  deriving DecidableEq, Repr

/-- A retake-phrase occurrence, `{phrase, start, end, word_index}`, as produced
by `search_transcript_for_phrases` (`transcription.py`). -/
structure RetakeMatch where
  phrase : String
  start : ℚ
  «end» : ℚ
  word_index : ℕ
  deriving DecidableEq, Repr

/-- A cut instruction dict as built in `llm_cuts.py`.  `llm_reasoning` is only
present on decision-service cuts, and `cut_kind` is read by
`_has_phrase_cut`/`_has_mistake_cut` but never written anywhere in the
repository, so both are `Option`s (`none` models a missing key). -/
structure CutInstruction where
  start_time : ℚ
  end_time : ℚ
  reason : String
  confidence : ℚ
  pattern : String
  method : String
  llm_reasoning : Option String := none
  cut_kind : Option String := none
  deriving DecidableEq, Repr

/-- Default transcript word, used only as the `getD` fallback for list
accesses the source guards by an index bound. -/
def dfltWord : TranscriptWord := ⟨"", 0, 0⟩

/-- Default retake match (fallback for accesses on provably nonempty lists). -/
def dfltMatch : RetakeMatch := ⟨"", 0, 0, 0⟩

/-! ### Python primitives -/

/-- Python list indexing `l[i]` with a possibly negative index
(negative indexes count from the end).  Out-of-range access returns the
default element; every use below is either in range or under a theorem
hypothesis that makes it so. -/
def pyGet (l : List TranscriptWord) (i : ℤ) : TranscriptWord :=
  if i < 0 then l.getD (l.length + i).toNat dfltWord
  else l.getD i.toNat dfltWord

/-- Python `needle in hay` on strings: substring containment. -/
def strContains (hay needle : String) : Bool :=
  decide (needle.data <:+: hay.data)

/-- Python `s.strip(chars)`: drop the given characters from both ends. -/
def pyStrip (s : String) (chars : List Char) : String :=
  ⟨((s.data.dropWhile (· ∈ chars)).reverse.dropWhile (· ∈ chars)).reverse⟩

/-- Python `s.strip()`: drop whitespace from both ends. -/
def pyStripWs (s : String) : String :=
  ⟨((s.data.dropWhile Char.isWhitespace).reverse.dropWhile
      Char.isWhitespace).reverse⟩

/-- Python `s.lower()` (ASCII case folding, as all marker phrases are ASCII). -/
def pyLower (s : String) : String :=
  ⟨s.data.map Char.toLower⟩

/-- Helper for `pySplitWs`: scan the characters, `acc` holding the current
word reversed. -/
def splitWsAux : List Char → List Char → List String
  | [], acc => if acc = [] then [] else [⟨acc.reverse⟩]
  | c :: cs, acc =>
      if c.isWhitespace then
        if acc = [] then splitWsAux cs []
        else ⟨acc.reverse⟩ :: splitWsAux cs []
      else splitWsAux cs (c :: acc)

/-- Python `s.split()`: split on whitespace runs, dropping empty pieces. -/
def pySplitWs (s : String) : List String :=
  splitWsAux s.data []

/-! ### `transcription.py`: marker locator -/

/-- The word normalisation of `search_transcript_for_phrases`
(`transcription.py:158-160`): `word.strip().lower()` then keep only
alphanumeric characters. -/
def normalizeWord (s : String) : String :=
  ⟨(pyLower (pyStripWs s)).data.filter Char.isAlphanum⟩

/-- The inner window test of `search_transcript_for_phrases`
(`transcription.py:156-163`): every word of the phrase matches the
normalised transcript word at the corresponding offset. -/
def windowMatches (words : List TranscriptWord) (phraseWords : List String)
    (i : ℕ) : Bool :=
  (List.range phraseWords.length).all fun j =>
    match words.get? (i + j), phraseWords.get? j with
    | some w, some t => normalizeWord w.word == t
    | _, _ => false

/-- The candidate window start positions, `range(len(words) - phrase_len + 1)`
(`transcription.py:154`): empty when the phrase is longer than the
transcript (Python's `range` of a negative bound). -/
def windowStarts (nWords phraseLen : ℕ) : List ℕ :=
  if phraseLen ≤ nWords then List.range (nWords - phraseLen + 1) else []

/-- One phrase's pass of `search_transcript_for_phrases`
(`transcription.py:150-175`). -/
def phraseMatches (words : List TranscriptWord) (phrase : String) :
    List RetakeMatch :=
  let phrase_words := pySplitWs (pyLower phrase)
  let phrase_len := phrase_words.length
  (windowStarts words.length phrase_len).filterMap fun i =>
    if windowMatches words phrase_words i then
      some { phrase := phrase
             start := (pyGet words i).start
             «end» := (pyGet words ((i : ℤ) + phrase_len - 1)).«end»
             word_index := i }
    else none

/-- `search_transcript_for_phrases` (`transcription.py:139-177`): the outer
loop over phrases appends each phrase's matches to one shared list. -/
def search_transcript_for_phrases (words : List TranscriptWord)
    (phrases : List String) : List RetakeMatch :=
  phrases.flatMap (phraseMatches words)

/-! ### `llm_cuts.py`: clustering, pattern detection, fallback heuristic -/

/-- `PATTERN_MIN_LOOKBACK_SECONDS.get(pattern, 0.5)` (`llm_cuts.py:39-45`). -/
def pattern_min_lookback (pattern : String) : ℚ :=
  if pattern = "quick_fix" then 1/2
  else if pattern = "medium_segment" then 3/2
  else if pattern = "full_redo" then 5
  else if pattern = "multiple_attempts" then 2
  else if pattern = "unknown" then 1/2
  else 1/2

/-- `extract_context_window` (`llm_cuts.py:60-96`): the words whose start lies
in `[max(0, marker - window), marker + window]`, with the first and last
matching index (`-1` when no word matches, `(0,0)` for an empty transcript). -/
def extract_context_window (transcript_words : List TranscriptWord)
    (marker_time : ℚ) (window_seconds : ℚ := 30) :
    List TranscriptWord × ℤ × ℤ :=
  if transcript_words = [] then ([], 0, 0)
  else
    let start_time := max 0 (marker_time - window_seconds)
    let end_time := marker_time + window_seconds
    let hits := transcript_words.enum.filter fun p =>
      decide (start_time ≤ p.2.start) && decide (p.2.start ≤ end_time)
    (hits.map Prod.snd,
     (hits.head?.map fun p => (p.1 : ℤ)).getD (-1),
     (hits.getLast?.map fun p => (p.1 : ℤ)).getD (-1))

/-- `identify_sentence_boundaries` (`llm_cuts.py:99-132`): indices whose
stripped word ends in `.`, `!` or `?`, or that are followed by a pause of at
least `min_pause_seconds`; the last index is always appended. -/
def identify_sentence_boundaries (transcript_words : List TranscriptWord)
    (min_pause_seconds : ℚ := 1/2) : List ℕ :=
  ((List.range (transcript_words.length - 1)).filter fun i =>
    let word := pyStripWs (transcript_words.getD i dfltWord).word
    let has_punctuation : Bool :=
      match word.data.getLast? with
      | some c => ['.', '!', '?'].contains c
      | none => false
    let pause_duration :=
      (transcript_words.getD (i+1) dfltWord).start -
        (transcript_words.getD i dfltWord).«end»
    has_punctuation || decide (pause_duration ≥ min_pause_seconds)) ++
  (if transcript_words = [] then [] else [transcript_words.length - 1])

/-- `detect_retake_pattern` (`llm_cuts.py:135-196`). -/
def detect_retake_pattern (context_words : List TranscriptWord)
    (retake_match : RetakeMatch) (transcript_words : List TranscriptWord)
    (retake_matches : Option (List RetakeMatch) := none) : String :=
  let retake_time := retake_match.start
  let before_words := context_words.filter fun w => decide (w.«end» < retake_time)
  if before_words = [] then "unknown"
  else
    let first_word_time := (before_words.headD dfltWord).start
    let duration_before := retake_time - first_word_time
    if duration_before < 5 then "quick_fix"
    else
      let is_multiple : Bool :=
        match retake_matches with
        | some ms =>
            !(ms.filter fun mm =>
                decide (|mm.start - retake_time| < 20) &&
                decide (mm.start ≠ retake_time)).isEmpty
        | none =>
            2 ≤ (transcript_words.filter fun w =>
                  (["cut", "retake", "oops"].contains
                    (pyStrip (pyLower w.word) ['.', ',', '!', '?'])) &&
                  decide (|w.start - retake_time| < 20) &&
                  decide (w.start ≠ retake_time)).length
      if is_multiple then "multiple_attempts"
      else if 10 ≤ duration_before then "full_redo"
      else "medium_segment"

/-- Sort key of `sorted(retake_matches, key=lambda m: m["start"])`. -/
def matchLE (a b : RetakeMatch) : Prop := a.start ≤ b.start

instance : DecidableRel matchLE := fun a b =>
  inferInstanceAs (Decidable (a.start ≤ b.start))

/-- Python's `sorted` by `start` on retake matches.  Python's sort is stable,
so it is modelled by stable insertion sort. -/
def sortMatches (ms : List RetakeMatch) : List RetakeMatch :=
  List.insertionSort matchLE ms

/-- Loop body of `cluster_retake_markers` (`llm_cuts.py:247-253`): `cur` is
the open cluster, `lst` its last appended match. -/
def clusterAux (max_gap : ℚ) :
    List RetakeMatch → RetakeMatch → List RetakeMatch → List (List RetakeMatch)
  | cur, _, [] => [cur]
  | cur, lst, m :: rest =>
      if m.start - lst.«end» ≤ max_gap then clusterAux max_gap (cur ++ [m]) m rest
      else cur :: clusterAux max_gap [m] m rest

/-- `cluster_retake_markers` (`llm_cuts.py:234-255`). -/
def cluster_retake_markers (retake_matches : List RetakeMatch)
    (max_gap_seconds : ℚ := 20) : List (List RetakeMatch) :=
  match sortMatches retake_matches with
  | [] => []
  | m :: rest => clusterAux max_gap_seconds [m] m rest

/-- Strategy 1 of `generate_fallback_cuts` (`llm_cuts.py:833-841`): latest
sentence boundary whose end lies 2 to 30 seconds before the marker.  The
source's `if sentence_boundaries and transcript_words` makes both `None` and
the empty list skip the strategy. -/
def fallbackSentenceStart (transcript_words : List TranscriptWord)
    (sentence_boundaries : Option (List ℕ)) (retake_start : ℚ) : Option ℚ :=
  if (sentence_boundaries.getD []) ≠ [] ∧ transcript_words ≠ [] then
    (((sentence_boundaries.getD []).reverse).find? fun b =>
        decide (b < transcript_words.length) &&
        decide (2 ≤ retake_start - (transcript_words.getD b dfltWord).«end») &&
        decide (retake_start - (transcript_words.getD b dfltWord).«end» ≤ 30)).map
      fun b => (transcript_words.getD b dfltWord).«end»
  else none

/-- Strategy 2 of `generate_fallback_cuts` (`llm_cuts.py:845-856`): the end of
the VAD segment whose following silence gap contains the marker, if it lies
2 to 30 seconds before the marker. -/
def fallbackVadStart (vad_segments : Option (List (ℚ × ℚ)))
    (retake_start : ℚ) : Option ℚ :=
  let vad := vad_segments.getD []
  if vad ≠ [] then
    ((List.range (vad.length - 1)).find? fun i =>
        let gap_end := (vad.getD i (0, 0)).2
        let gap_start_next := (vad.getD (i+1) (0, 0)).1
        decide (gap_end < retake_start) && decide (retake_start < gap_start_next) &&
        decide (2 ≤ retake_start - gap_end) && decide (retake_start - gap_end ≤ 30)).map
      fun i => (vad.getD i (0, 0)).2
  else none

/-- Strategy 3 of `generate_fallback_cuts` (`llm_cuts.py:859-884`):
speech-density lookback over the 10 words preceding the marker, or a flat
10-second default when fewer than 10 words precede the marker. -/
def fallbackDensityStart (transcript_words : List TranscriptWord)
    (retake_start : ℚ) : ℚ :=
  let words_before := transcript_words.filter fun w => decide (w.«end» ≤ retake_start)
  if 10 ≤ words_before.length then
    let recent_words := words_before.drop (words_before.length - 10)
    let time_span := retake_start - (recent_words.headD dfltWord).start
    let words_per_second := if 0 < time_span then 10 / time_span else 2
    let lookback : ℚ :=
      if 3 ≤ words_per_second then 8
      else if 2 ≤ words_per_second then 12
      else 15
    max 0 (retake_start - lookback)
  else max 0 (retake_start - 10)

/-- The two cut dicts appended per marker by `generate_fallback_cuts`
(`llm_cuts.py:888-906`): the mistake segment (confidence 0.5) and the
retake phrase itself (confidence 0.9). -/
def markerCutPair (m : RetakeMatch) (mistake_start : ℚ) : List CutInstruction :=
  [{ start_time := mistake_start
     end_time := m.start
     reason := "Mistake before '" ++ m.phrase ++ "' (fallback heuristic)"
     confidence := 1/2
     pattern := "fallback"
     method := "fallback_heuristic" },
   { start_time := m.start
     end_time := m.«end»
     reason := "Retake phrase '" ++ m.phrase ++ "'"
     confidence := 9/10
     pattern := "retake_phrase"
     method := "fallback_heuristic" }]

/-- One iteration of the marker loop of `generate_fallback_cuts`
(`llm_cuts.py:824-906`): strategies 1, 2, 3 in order, then the two cuts. -/
def markerFallbackCuts (transcript_words : List TranscriptWord)
    (vad_segments : Option (List (ℚ × ℚ))) (sentence_boundaries : Option (List ℕ))
    (m : RetakeMatch) : List CutInstruction :=
  let mistake_start :=
    (fallbackSentenceStart transcript_words sentence_boundaries m.start <|>
     fallbackVadStart vad_segments m.start).getD
      (fallbackDensityStart transcript_words m.start)
  markerCutPair m mistake_start

/-- `generate_fallback_cuts` (`llm_cuts.py:796-908`). -/
def generate_fallback_cuts (transcript_words : List TranscriptWord)
    (retake_matches : List RetakeMatch)
    (vad_segments : Option (List (ℚ × ℚ)) := none)
    (sentence_boundaries : Option (List ℕ) := none) : List CutInstruction :=
  retake_matches.flatMap
    (markerFallbackCuts transcript_words vad_segments sentence_boundaries)

/-- `Option`-valued twin of strategy 3: `none` exactly where the source could
raise (`recent_words[0]` on an empty slice; the division is guarded by
`time_span > 0` in the source itself). -/
def fallbackDensityStartChecked (transcript_words : List TranscriptWord)
    (retake_start : ℚ) : Option ℚ :=
  let words_before := transcript_words.filter fun w => decide (w.«end» ≤ retake_start)
  if 10 ≤ words_before.length then
    (words_before.drop (words_before.length - 10)).head?.map fun w0 =>
      let time_span := retake_start - w0.start
      let words_per_second := if 0 < time_span then 10 / time_span else 2
      let lookback : ℚ :=
        if 3 ≤ words_per_second then 8
        else if 2 ≤ words_per_second then 12
        else 15
      max 0 (retake_start - lookback)
  else some (max 0 (retake_start - 10))

/-- `Option`-valued twin of the marker loop body: `none` exactly where the
source could raise.  Strategies 1 and 2 index only under explicit bound
checks, so only strategy 3 can fail, and only when it is reached. -/
def markerFallbackCutsChecked (transcript_words : List TranscriptWord)
    (vad_segments : Option (List (ℚ × ℚ))) (sentence_boundaries : Option (List ℕ))
    (m : RetakeMatch) : Option (List CutInstruction) :=
  ((fallbackSentenceStart transcript_words sentence_boundaries m.start <|>
    fallbackVadStart vad_segments m.start) <|>
   fallbackDensityStartChecked transcript_words m.start).map
    (markerCutPair m)

/-- `Option`-valued twin of `generate_fallback_cuts`: a raised exception in
any marker's iteration aborts the whole call. -/
def generate_fallback_cuts_checked (transcript_words : List TranscriptWord)
    (retake_matches : List RetakeMatch)
    (vad_segments : Option (List (ℚ × ℚ)) := none)
    (sentence_boundaries : Option (List ℕ) := none) : Option (List CutInstruction) :=
  (retake_matches.mapM
    (markerFallbackCutsChecked transcript_words vad_segments sentence_boundaries)).map
    List.flatten

/-- `_build_cluster_fallback_cut` (`llm_cuts.py:631-666`): one fallback cut
for a whole cluster, anchored at the first marker, ending at the last
marker's end. -/
def _build_cluster_fallback_cut (transcript_words : List TranscriptWord)
    (cluster : List RetakeMatch)
    (vad_segments : Option (List (ℚ × ℚ)) := none)
    (sentence_boundaries : Option (List ℕ) := none) : CutInstruction :=
  let first_marker := cluster.headD dfltMatch
  let last_marker := cluster.getLastD dfltMatch
  let fallback_cuts :=
    generate_fallback_cuts transcript_words [first_marker] vad_segments
      sentence_boundaries
  let mistake_cut := fallback_cuts.find? fun c => !(c.pattern == "retake_phrase")
  let chosen : ℚ × String :=
    match mistake_cut with
    | none => (max 0 (first_marker.start - 8),
               "Fallback lookback (no sentence boundary found)")
    | some c => (c.start_time, c.reason)
  { start_time := chosen.1
    end_time := last_marker.«end»
    reason := chosen.2
    confidence := 1/2
    pattern := "fallback"
    method := "fallback_heuristic" }

/-- `_cut_overlaps_range` (`llm_cuts.py:669-670`): closed-interval overlap. -/
def _cut_overlaps_range (cut : CutInstruction) (start_time end_time : ℚ) : Bool :=
  decide (cut.start_time ≤ end_time) && decide (cut.end_time ≥ start_time)

/-- `_has_phrase_cut` (`llm_cuts.py:673-679`). -/
def _has_phrase_cut (cuts : List CutInstruction) (m : RetakeMatch) : Bool :=
  cuts.any fun cut =>
    (cut.cut_kind == some "retake_phrase") ||
    _cut_overlaps_range cut m.start m.«end»

/-- `_has_mistake_cut` (`llm_cuts.py:682-693`). -/
def _has_mistake_cut (cuts : List CutInstruction) (m : RetakeMatch)
    (min_lookback : ℚ) : Bool :=
  cuts.any fun cut =>
    (cut.cut_kind == some "mistake") ||
    (decide (cut.start_time ≤ m.start - min_lookback) &&
      (_cut_overlaps_range cut m.start m.«end» ||
       decide (cut.end_time ≥ m.start - 1/5)))

/-- One step of the patch loop of `ensure_retake_coverage`
(`llm_cuts.py:738-746`): the state is the cut list with the
`has_mistake`/`has_phrase` flags. -/
def patchStep (m : RetakeMatch) (min_lookback : ℚ) :
    List CutInstruction × Bool × Bool → CutInstruction →
    List CutInstruction × Bool × Bool
  | (cs, has_mistake, has_phrase), fc =>
    if fc.pattern = "retake_phrase" then
      if !has_phrase && !(_has_phrase_cut cs m) then (cs ++ [fc], has_mistake, true)
      else (cs, has_mistake, has_phrase)
    else
      if !has_mistake && !(_has_mistake_cut cs m min_lookback) then
        (cs ++ [fc], true, has_phrase)
      else (cs, has_mistake, has_phrase)

/-- The marker loop of `ensure_retake_coverage` (`llm_cuts.py:712-746`),
indexing `patterns` by the marker's position. -/
def ensureAux (transcript_words : List TranscriptWord)
    (vad_segments : Option (List (ℚ × ℚ))) (sentence_boundaries : Option (List ℕ))
    (patterns : List String) :
    ℕ → List CutInstruction → List RetakeMatch → List CutInstruction
  | _, cuts, [] => cuts
  | idx, cuts, m :: rest =>
      let pattern := patterns.getD idx "unknown"
      let min_lookback := pattern_min_lookback pattern
      let has_mistake := _has_mistake_cut cuts m min_lookback
      let has_phrase := _has_phrase_cut cuts m
      if has_mistake && has_phrase then
        ensureAux transcript_words vad_segments sentence_boundaries patterns
          (idx + 1) cuts rest
      else
        let fallback_cuts :=
          generate_fallback_cuts transcript_words [m] vad_segments
            sentence_boundaries
        let st := fallback_cuts.foldl (patchStep m min_lookback)
          (cuts, has_mistake, has_phrase)
        ensureAux transcript_words vad_segments sentence_boundaries patterns
          (idx + 1) st.1 rest

/-- `ensure_retake_coverage` (`llm_cuts.py:696-748`). -/
def ensure_retake_coverage (cuts : List CutInstruction)
    (transcript_words : List TranscriptWord) (retake_matches : List RetakeMatch)
    (patterns : List String)
    (vad_segments : Option (List (ℚ × ℚ)) := none)
    (sentence_boundaries : Option (List ℕ) := none) : List CutInstruction :=
  if retake_matches = [] then cuts
  else ensureAux transcript_words vad_segments sentence_boundaries patterns
    0 cuts retake_matches

/-! ### `llm_cuts.py`: cut algebra (merge, keep segments) -/

/-- Sort key of `sorted(cuts, key=lambda x: x["start_time"])`. -/
def cutLE (a b : CutInstruction) : Prop := a.start_time ≤ b.start_time

instance : DecidableRel cutLE := fun a b =>
  inferInstanceAs (Decidable (a.start_time ≤ b.start_time))

/-- Python's `sorted` by `start_time` on cuts.  Python's sort is stable, so it
is modelled by stable insertion sort. -/
def sortCuts (cuts : List CutInstruction) : List CutInstruction :=
  List.insertionSort cutLE cuts

/-- The in-place merge of `merge_overlapping_cuts` (`llm_cuts.py:773-788`):
extend the end, combine distinct reasons (Python substring test), take the
minimum confidence, and keep the higher-confidence reasoning. -/
def mergeTwo (last current : CutInstruction) : CutInstruction :=
  let new_end := max last.end_time current.end_time
  let new_reason :=
    if strContains last.reason current.reason then last.reason
    else last.reason ++ " + " ++ current.reason
  let new_confidence := min last.confidence current.confidence
  let new_reasoning :=
    match current.llm_reasoning, last.llm_reasoning with
    | some cr, some _ =>
        if current.confidence > new_confidence then some cr else last.llm_reasoning
    | _, _ => last.llm_reasoning
  { last with
    end_time := new_end
    reason := new_reason
    confidence := new_confidence
    llm_reasoning := new_reasoning }

/-- The fold of `merge_overlapping_cuts` (`llm_cuts.py:767-793`): `last` is
the open merged cut (`merged[-1]`). -/
def mergeAux : CutInstruction → List CutInstruction → List CutInstruction
  | last, [] => [last]
  | last, current :: rest =>
      if current.start_time ≤ last.end_time + 1/2 then
        mergeAux (mergeTwo last current) rest
      else last :: mergeAux current rest

/-- `merge_overlapping_cuts` (`llm_cuts.py:751-793`). -/
def merge_overlapping_cuts (cuts : List CutInstruction) : List CutInstruction :=
  match sortCuts cuts with
  | [] => []
  | c :: rest => mergeAux c rest

/-- The keep-segment sweep of `apply_cuts_to_video` (`llm_cuts.py:961-972`):
`current` is `current_time`. -/
def keepSegmentsFrom (duration : ℚ) :
    ℚ → List CutInstruction → List (ℚ × ℚ)
  | current, [] => if current < duration then [(current, duration)] else []
  | current, cut :: rest =>
      (if current < cut.start_time then [(current, cut.start_time)] else []) ++
      keepSegmentsFrom duration (max current cut.end_time) rest

/-- The keep segments computed by `apply_cuts_to_video`
(`llm_cuts.py:957-972`): sort the cuts by start time, then sweep. -/
def apply_cuts_keep_segments (cut_instructions : List CutInstruction)
    (duration : ℚ) : List (ℚ × ℚ) :=
  keepSegmentsFrom duration 0 (sortCuts cut_instructions)

/-! ### `llm_cuts.py`: per-cluster decision-service resolution -/

/-- A parsed decision-service response for one cluster,
`{mistake_start_time, reason, confidence}` (`llm_cuts.py:476-481,492-494`). -/
structure DecisionResponse where
  mistake_start_time : ℚ
  reason : String
  confidence : ℚ
  deriving DecidableEq, Repr

/-- The validation of a decision-service response inside the cluster loop of
`analyze_retake_cuts` (`llm_cuts.py:492-530`): a response whose
`mistake_start_time` is not at least 0.05s before the cluster's first marker
start raises (`llm_cuts.py:496-500`), which the `except` arm turns into the
cluster's fallback cut; an accepted response is clamped to the context start
and becomes an `llm`-tagged cut ending at the cluster's last marker end. -/
def analyze_cluster_with_response (transcript_words : List TranscriptWord)
    (cluster : List RetakeMatch) (resp : DecisionResponse)
    (context_window_seconds : ℚ) (cluster_pattern : String)
    (vad_segments : Option (List (ℚ × ℚ)) := none)
    (sentence_boundaries : Option (List ℕ) := none) : CutInstruction :=
  let cluster_start := (cluster.headD dfltMatch).start
  let cluster_end := (cluster.getLastD dfltMatch).«end»
  let context_start := max 0 (cluster_start - context_window_seconds)
  if resp.mistake_start_time ≥ cluster_start - 1/20 then
    _build_cluster_fallback_cut transcript_words cluster vad_segments
      sentence_boundaries
  else
    let mistake_start :=
      if resp.mistake_start_time < context_start then context_start
      else resp.mistake_start_time
    { start_time := mistake_start
      end_time := cluster_end
      reason := resp.reason
      confidence := resp.confidence
      pattern := cluster_pattern
      method := "llm"
      llm_reasoning := some resp.reason }

/-- `analyze_retake_cuts` (`llm_cuts.py:325-564`) specialised to the run in
which every decision-service call for every cluster fails (the scenario of
the spec's error-handling claims): each cluster takes the `except` arm
(`llm_cuts.py:519-530`) and receives `_build_cluster_fallback_cut`; the
low-confidence filter, the coverage pass and the merge then run as in the
source. -/
def analyze_retake_cuts_llm_failed (transcript_words : List TranscriptWord)
    (retake_matches : List RetakeMatch)
    (context_window_seconds : ℚ := 30) (min_confidence : ℚ := 7/10)
    (prefer_sentence_boundaries : Bool := true)
    (vad_segments : Option (List (ℚ × ℚ)) := none) : List CutInstruction :=
  if retake_matches = [] then []
  else
    let sentence_boundaries :=
      if prefer_sentence_boundaries then
        identify_sentence_boundaries transcript_words
      else []
    let sb_arg : Option (List ℕ) :=
      if prefer_sentence_boundaries then some sentence_boundaries else none
    let sorted_matches := sortMatches retake_matches
    let patterns := sorted_matches.map fun m =>
      detect_retake_pattern
        (extract_context_window transcript_words m.start context_window_seconds).1
        m transcript_words (some sorted_matches)
    let clusters := cluster_retake_markers sorted_matches
    let all_cuts := clusters.map fun cluster =>
      _build_cluster_fallback_cut transcript_words cluster vad_segments sb_arg
    let all_cuts :=
      if 0 < min_confidence then
        all_cuts.filter fun cut =>
          !(cut.method == "llm") || decide (cut.confidence ≥ min_confidence)
      else all_cuts
    let all_cuts := ensure_retake_coverage all_cuts transcript_words
      sorted_matches patterns vad_segments sb_arg
    merge_overlapping_cuts all_cuts

/-! ### `vad_processor.py`: segment detector -/

/-- `merge_close_segments` loop (`vad_processor.py:170-180`): `cur` is
`merged[-1]`. -/
def mergeCloseAux (max_gap : ℚ) : (ℚ × ℚ) → List (ℚ × ℚ) → List (ℚ × ℚ)
  | cur, [] => [cur]
  | cur, (s, e) :: rest =>
      if s - cur.2 ≤ max_gap then mergeCloseAux max_gap (cur.1, e) rest
      else cur :: mergeCloseAux max_gap (s, e) rest

/-- `merge_close_segments` (`vad_processor.py:162-180`). -/
def merge_close_segments (segments : List (ℚ × ℚ)) (max_gap : ℚ) :
    List (ℚ × ℚ) :=
  match segments with
  | [] => []
  | s :: rest => mergeCloseAux max_gap s rest

/-- Overlap-merge loop of `add_padding` (`vad_processor.py:199-207`). -/
def padMergeAux : (ℚ × ℚ) → List (ℚ × ℚ) → List (ℚ × ℚ)
  | cur, [] => [cur]
  | cur, (s, e) :: rest =>
      if s ≤ cur.2 then padMergeAux (cur.1, max cur.2 e) rest
      else cur :: padMergeAux (s, e) rest

/-- `add_padding` (`vad_processor.py:183-207`). -/
def add_padding (segments : List (ℚ × ℚ)) (padding_s duration : ℚ) :
    List (ℚ × ℚ) :=
  match segments.map fun p => (max 0 (p.1 - padding_s), min duration (p.2 + padding_s)) with
  | [] => []
  | s :: rest => padMergeAux s rest

/-- Result of the VAD segment pipeline: either an explicit failure (the
`{"success": False, "error": ...}` dicts of `process_video_vad`) or the
processed speech segments of the success dict
(`vad_processor.py:469-476`). -/
inductive VadOutcome where
  | failure (error : String)
  | success (speech_segments : List (ℚ × ℚ))
  deriving DecidableEq, Repr

/-- The segment-processing core of `process_video_vad`
(`vad_processor.py:423-447,469-476`), from the detected raw speech segments
to the final segments: the explicit no-speech failure, then merge, padding
and the keep-start rule.  The surrounding ffmpeg/IO calls (and their own
failure returns) are outside the embedding. -/
def process_video_vad_core (duration : ℚ) (raw_segments : List (ℚ × ℚ))
    (padding_ms : ℚ := 100) (merge_gap : ℚ := 3/10) (keep_start : Bool := true) :
    VadOutcome :=
  if raw_segments = [] then .failure "No speech detected in video"
  else
    let speech_segments := merge_close_segments raw_segments merge_gap
    let padding_s := padding_ms / 1000
    let speech_segments := add_padding speech_segments padding_s duration
    let speech_segments :=
      if keep_start ∧ speech_segments ≠ [] ∧ 0 < (speech_segments.headD (0, 0)).1 then
        (0, (speech_segments.headD (0, 0)).2) :: speech_segments.tail
      else speech_segments
    .success speech_segments

/-- The concrete transcript of the cluster-failure scenario: two content
words, then the spoken marker "cut cut" at 13.0-13.6s. -/
def sampleTw : List TranscriptWord :=
  [⟨"hello", 0, 1/2⟩, ⟨"world", 1, 3/2⟩, ⟨"cut", 13, 133/10⟩,
   ⟨"cut", 133/10, 68/5⟩]

/-- The marker match located in `sampleTw`. -/
def sampleMarker : RetakeMatch := ⟨"cut cut", 13, 68/5, 2⟩

/-- Separation between consecutive merged cuts: the next cut starts strictly
beyond the previous end plus the 0.5s adjacency slack. -/
def cutSep (a b : CutInstruction) : Prop := a.end_time + 1/2 < b.start_time

instance : IsTotal CutInstruction cutLE :=
  ⟨fun a b => le_total a.start_time b.start_time⟩

instance : IsTrans CutInstruction cutLE :=
  ⟨fun _ _ _ h1 h2 => le_trans h1 h2⟩

/-! ### Helper lemmas -/

theorem headD_eq_head? {α : Type} (l : List α) (d : α) (h : l ≠ []) :
    l.head? = some (l.headD d) := by
  cases l with
  | nil => exact absurd rfl h
  | cons a t => rfl

theorem fallbackDensityStartChecked_eq (tw : List TranscriptWord) (rs : ℚ) :
    fallbackDensityStartChecked tw rs = some (fallbackDensityStart tw rs) := by
  unfold fallbackDensityStartChecked fallbackDensityStart
  set wb := tw.filter fun w => decide (w.«end» ≤ rs) with hwb
  by_cases h : 10 ≤ wb.length
  · simp only [if_pos h]
    have hlen : (wb.drop (wb.length - 10)).length = 10 := by
      rw [List.length_drop]; omega
    have hne : wb.drop (wb.length - 10) ≠ [] := by
      intro hnil; rw [hnil] at hlen; simp at hlen
    rw [headD_eq_head? _ dfltWord hne]
    rfl
  · simp only [if_neg h]

theorem markerFallbackCutsChecked_eq (tw : List TranscriptWord)
    (vad : Option (List (ℚ × ℚ))) (sb : Option (List ℕ)) (m : RetakeMatch) :
    markerFallbackCutsChecked tw vad sb m = some (markerFallbackCuts tw vad sb m) := by
  unfold markerFallbackCutsChecked markerFallbackCuts
  rw [fallbackDensityStartChecked_eq]
  cases fallbackSentenceStart tw sb m.start <|> fallbackVadStart vad m.start with
  | none => rfl
  | some v => rfl

/-- C4: `generate_fallback_cuts` is deterministic and never raises: the
`Option`-valued twin, which returns `none` exactly where the source could
raise an exception, always succeeds, and its value is the one total result
(so two calls on identical `transcript_words`, `retake_matches`,
`vad_segments` and `sentence_boundaries` return this same cut list, equal
`mistake_start` values included). -/
theorem generate_fallback_cuts_deterministic (tw : List TranscriptWord)
    (rm : List RetakeMatch) (vad : Option (List (ℚ × ℚ))) (sb : Option (List ℕ)) :
    generate_fallback_cuts_checked tw rm vad sb =
      some (generate_fallback_cuts tw rm vad sb) := by
  unfold generate_fallback_cuts_checked generate_fallback_cuts
  induction rm with
  | nil => rfl
  | cons m rest ih =>
      rw [List.mapM_cons, markerFallbackCutsChecked_eq]
      cases hrest : rest.mapM (markerFallbackCutsChecked tw vad sb) with
      | none => rw [hrest] at ih; simp at ih
      | some ls =>
          rw [hrest] at ih
          simp only [Option.map_eq_some'] at ih
          obtain ⟨a, ha, hflat⟩ := ih
          cases ha
          simp [hflat.symm]

/-- C3: inside `analyze_retake_cuts`, a decision-service response whose
`mistake_start_time` is at or after the cluster's first marker start is
rejected (the source raises and takes the `except` arm): the cluster's cut
is the deterministic fallback cut, tagged `method = "fallback_heuristic"`,
and the response's value is not used as a cut start. -/
theorem analyze_cluster_rejects_late_mistake_start
    (tw : List TranscriptWord) (cluster : List RetakeMatch)
    (resp : DecisionResponse) (cw : ℚ) (pat : String)
    (vad : Option (List (ℚ × ℚ))) (sb : Option (List ℕ))
    (h : (cluster.headD dfltMatch).start ≤ resp.mistake_start_time) :
    analyze_cluster_with_response tw cluster resp cw pat vad sb =
      _build_cluster_fallback_cut tw cluster vad sb ∧
    (analyze_cluster_with_response tw cluster resp cw pat vad sb).method =
      "fallback_heuristic" := by
  have hcond : resp.mistake_start_time ≥ (cluster.headD dfltMatch).start - 1/20 := by
    have : (cluster.headD dfltMatch).start - 1/20 ≤ (cluster.headD dfltMatch).start := by
      linarith
    linarith
  have heq : analyze_cluster_with_response tw cluster resp cw pat vad sb =
      _build_cluster_fallback_cut tw cluster vad sb := by
    unfold analyze_cluster_with_response
    rw [if_pos hcond]
  refine ⟨heq, ?_⟩
  rw [heq]
  unfold _build_cluster_fallback_cut
  rfl

/-- Witness for C3 at a concrete cluster and response. -/
theorem analyze_cluster_rejects_late_mistake_start_witness :
    ((([⟨"cut cut", 10, 11, 0⟩] : List RetakeMatch).headD dfltMatch).start ≤
      (⟨12, "reason", 1⟩ : DecisionResponse).mistake_start_time) ∧
    (analyze_cluster_with_response [] [⟨"cut cut", 10, 11, 0⟩] ⟨12, "reason", 1⟩
        30 "unknown" none none =
      _build_cluster_fallback_cut [] [⟨"cut cut", 10, 11, 0⟩] none none ∧
    (analyze_cluster_with_response [] [⟨"cut cut", 10, 11, 0⟩] ⟨12, "reason", 1⟩
        30 "unknown" none none).method = "fallback_heuristic") :=
  ⟨by decide, analyze_cluster_rejects_late_mistake_start _ _ _ _ _ _ _ (by decide)⟩

theorem mergeCloseAux_ne_nil (g : ℚ) (cur : ℚ × ℚ) (l : List (ℚ × ℚ)) :
    mergeCloseAux g cur l ≠ [] := by
  induction l generalizing cur with
  | nil => simp [mergeCloseAux]
  | cons s rest ih =>
      obtain ⟨s1, s2⟩ := s
      unfold mergeCloseAux
      split
      · exact ih _
      · simp

theorem padMergeAux_ne_nil (cur : ℚ × ℚ) (l : List (ℚ × ℚ)) :
    padMergeAux cur l ≠ [] := by
  induction l generalizing cur with
  | nil => simp [padMergeAux]
  | cons s rest ih =>
      obtain ⟨s1, s2⟩ := s
      unfold padMergeAux
      split
      · exact ih _
      · simp

theorem add_padding_ne_nil (segments : List (ℚ × ℚ)) (p d : ℚ)
    (h : segments ≠ []) : add_padding segments p d ≠ [] := by
  unfold add_padding
  cases segments with
  | nil => exact absurd rfl h
  | cons s rest => exact padMergeAux_ne_nil _ _

/-- C8: the segment core of `process_video_vad`: when VAD detects no speech
segments the result is the explicit no-speech failure, and a success result
always carries a nonempty segment list. -/
theorem process_video_vad_no_speech (duration padding_ms merge_gap : ℚ)
    (keep_start : Bool) (raw : List (ℚ × ℚ)) :
    (raw = [] ∧ process_video_vad_core duration raw padding_ms merge_gap keep_start =
      .failure "No speech detected in video") ∨
    (raw ≠ [] ∧ ∃ out,
      process_video_vad_core duration raw padding_ms merge_gap keep_start =
        .success out ∧ out ≠ []) := by
  cases hr : raw with
  | nil => exact Or.inl ⟨rfl, by unfold process_video_vad_core; rw [if_pos rfl]⟩
  | cons s rest =>
      refine Or.inr ⟨by simp, ?_⟩
      unfold process_video_vad_core
      rw [if_neg (by simp)]
      set s1 := merge_close_segments (s :: rest) merge_gap with hs1
      have h1 : s1 ≠ [] := by rw [hs1]; unfold merge_close_segments; exact mergeCloseAux_ne_nil _ _ _
      set s2 := add_padding s1 (padding_ms / 1000) duration with hs2
      have h2 : s2 ≠ [] := add_padding_ne_nil _ _ _ h1
      refine ⟨_, rfl, ?_⟩
      split
      · simp
      · exact h2

/-- Counterexample to C5 as stated: when every decision-service attempt for
the (single-marker) cluster fails, the pipeline emits ONE fallback cut for
the whole cluster (confidence 0.5), not two cuts per marker — in particular
no cut with confidence 0.9 appears in the output. -/
theorem cluster_failure_not_two_cuts_per_marker :
    ¬ ((analyze_retake_cuts_llm_failed sampleTw [sampleMarker]).length = 2 ∧
       ∃ c ∈ analyze_retake_cuts_llm_failed sampleTw [sampleMarker],
         c.confidence = 9/10) := by decide

/-- C5 (amended): when every decision-service attempt for a cluster fails,
the cluster receives exactly one `CutInstruction` (`_build_cluster_fallback_cut`,
the value appended by the `except` arm of `analyze_retake_cuts`): it is
tagged `method = "fallback_heuristic"`, has confidence 0.5, ends at the
cluster's last marker end, and starts at the deterministic heuristic's
mistake start for the cluster's first marker. -/
theorem cluster_failure_fallback_cut_shape (tw : List TranscriptWord)
    (cluster : List RetakeMatch) (vad : Option (List (ℚ × ℚ)))
    (sb : Option (List ℕ)) :
    (_build_cluster_fallback_cut tw cluster vad sb).method = "fallback_heuristic" ∧
    (_build_cluster_fallback_cut tw cluster vad sb).confidence = 1/2 ∧
    (_build_cluster_fallback_cut tw cluster vad sb).end_time =
      (cluster.getLastD dfltMatch).«end» ∧
    (_build_cluster_fallback_cut tw cluster vad sb).start_time =
      (fallbackSentenceStart tw sb (cluster.headD dfltMatch).start <|>
        fallbackVadStart vad (cluster.headD dfltMatch).start).getD
        (fallbackDensityStart tw (cluster.headD dfltMatch).start) := by
  unfold _build_cluster_fallback_cut
  refine ⟨rfl, rfl, rfl, ?_⟩
  simp only [generate_fallback_cuts, List.flatMap_cons, List.flatMap_nil,
    List.append_nil, markerFallbackCuts, markerCutPair]
  rw [List.find?_cons_of_pos _ (by rfl)]

/-! ### Merge idempotence (C6) -/

theorem mergeTwo_start (a b : CutInstruction) :
    (mergeTwo a b).start_time = a.start_time := rfl

theorem sortCuts_sorted (cuts : List CutInstruction) :
    List.Pairwise cutLE (sortCuts cuts) :=
  List.sorted_insertionSort cutLE cuts

theorem mergeAux_head (l : List CutInstruction) (c : CutInstruction) :
    ∃ e tl, mergeAux c l = e :: tl ∧ e.start_time = c.start_time := by
  induction l generalizing c with
  | nil => exact ⟨c, [], rfl, rfl⟩
  | cons d rest ih =>
      unfold mergeAux
      split
      · obtain ⟨e, tl, he, hs⟩ := ih (mergeTwo c d)
        exact ⟨e, tl, he, by rw [hs, mergeTwo_start]⟩
      · exact ⟨c, mergeAux d rest, rfl, rfl⟩

theorem mergeAux_ne_nil (l : List CutInstruction) (c : CutInstruction) :
    mergeAux c l ≠ [] := by
  obtain ⟨e, tl, he, _⟩ := mergeAux_head l c
  rw [he]; simp

theorem mergeAux_sorted (l : List CutInstruction) (c : CutInstruction)
    (h : List.Pairwise cutLE (c :: l)) :
    (∀ e ∈ mergeAux c l, c.start_time ≤ e.start_time) ∧
    List.Pairwise cutLE (mergeAux c l) := by
  induction l generalizing c with
  | nil =>
      refine ⟨?_, ?_⟩
      · intro e he
        unfold mergeAux at he
        simp at he
        rw [he]
      · unfold mergeAux; simp
  | cons d rest ih =>
      have hc : ∀ x ∈ d :: rest, cutLE c x := (List.pairwise_cons.mp h).1
      have hp : List.Pairwise cutLE (d :: rest) := (List.pairwise_cons.mp h).2
      unfold mergeAux
      split
      · have hp' : List.Pairwise cutLE (mergeTwo c d :: rest) := by
          refine List.pairwise_cons.mpr ⟨?_, (List.pairwise_cons.mp hp).2⟩
          intro x hx
          have : cutLE c x := hc x (List.mem_cons_of_mem _ hx)
          unfold cutLE at this ⊢
          rw [mergeTwo_start]
          exact this
        obtain ⟨ha, hb⟩ := ih (mergeTwo c d) hp'
        refine ⟨fun e he => ?_, hb⟩
        have := ha e he
        rw [mergeTwo_start] at this
        exact this
      · obtain ⟨ha, hb⟩ := ih d hp
        have hcd : cutLE c d := hc d (List.mem_cons_self d rest)
        refine ⟨fun e he => ?_, ?_⟩
        · rcases List.mem_cons.mp he with rfl | he'
          · exact le_refl _
          · exact le_trans hcd (ha e he')
        · exact List.pairwise_cons.mpr
            ⟨fun x hx => le_trans hcd (ha x hx), hb⟩


theorem mergeAux_chain (l : List CutInstruction) (c : CutInstruction) :
    List.Chain' cutSep (mergeAux c l) := by
  induction l generalizing c with
  | nil => unfold mergeAux; simp
  | cons d rest ih =>
      unfold mergeAux
      split
      · exact ih (mergeTwo c d)
      · rename_i hcond
        refine List.chain'_cons'.mpr ⟨?_, ih d⟩
        intro y hy
        obtain ⟨e, tl, he, hs⟩ := mergeAux_head rest d
        rw [he] at hy
        simp at hy
        rw [← hy, cutSep, hs]
        exact lt_of_not_ge hcond

theorem mergeAux_of_chain (l : List CutInstruction) (c : CutInstruction)
    (h : List.Chain' cutSep (c :: l)) : mergeAux c l = c :: l := by
  induction l generalizing c with
  | nil => rfl
  | cons d rest ih =>
      have hsep : cutSep c d := (List.chain'_cons.mp h).1
      have htl : List.Chain' cutSep (d :: rest) := (List.chain'_cons.mp h).2
      unfold mergeAux
      rw [if_neg (by exact not_le_of_lt hsep), ih d htl]

theorem merge_overlapping_cuts_of_sorted_sep (l : List CutInstruction)
    (hp : List.Pairwise cutLE l) (hch : List.Chain' cutSep l) :
    merge_overlapping_cuts l = l := by
  unfold merge_overlapping_cuts
  rw [show sortCuts l = l from List.Sorted.insertionSort_eq hp]
  cases l with
  | nil => rfl
  | cons c rest => exact mergeAux_of_chain rest c hch

/-- C6: `merge_overlapping_cuts` is idempotent: merging an already merged cut
list changes nothing. -/
theorem merge_overlapping_cuts_idempotent (cuts : List CutInstruction) :
    merge_overlapping_cuts (merge_overlapping_cuts cuts) =
      merge_overlapping_cuts cuts := by
  cases hs0 : sortCuts cuts with
  | nil =>
      have h1 : merge_overlapping_cuts cuts = [] := by
        unfold merge_overlapping_cuts; rw [hs0]
      rw [h1]
      rfl
  | cons c rest =>
      have h1 : merge_overlapping_cuts cuts = mergeAux c rest := by
        unfold merge_overlapping_cuts; rw [hs0]
      have hsorted0 : List.Pairwise cutLE (c :: rest) := by
        rw [← hs0]; exact sortCuts_sorted cuts
      rw [h1]
      exact merge_overlapping_cuts_of_sorted_sep (mergeAux c rest)
        (mergeAux_sorted rest c hsorted0).2 (mergeAux_chain rest c)

/-! ### Marker locator (C7, C10) -/

/-- C7: `search_transcript_for_phrases` reports every occurrence of every
configured phrase: whenever the sliding window of length equal to the
phrase's word count matches (case-insensitively, punctuation-stripped, which
is what `windowMatches` tests) at position `i`, the returned list contains a
match carrying the phrase, the window's first word start, its last word end,
and the starting word index `i` — repeated occurrences included, since this
holds at every matching `i`. -/
theorem search_reports_every_match (words : List TranscriptWord)
    (phrases : List String) (p : String) (i : ℕ)
    (hp : p ∈ phrases)
    (_hlen : 1 ≤ (pySplitWs (pyLower p)).length)
    (hb : i + (pySplitWs (pyLower p)).length ≤ words.length)
    (hm : windowMatches words (pySplitWs (pyLower p)) i = true) :
    (⟨p, (pyGet words i).start,
      (pyGet words ((i : ℤ) + (pySplitWs (pyLower p)).length - 1)).«end», i⟩ :
      RetakeMatch) ∈ search_transcript_for_phrases words phrases := by
  unfold search_transcript_for_phrases
  refine List.mem_flatMap.mpr ⟨p, hp, ?_⟩
  unfold phraseMatches
  refine List.mem_filterMap.mpr ⟨i, ?_, ?_⟩
  · unfold windowStarts
    rw [if_pos (by omega)]
    exact List.mem_range.mpr (by omega)
  · simp [hm]

/-- Witness for C7 at a concrete transcript: "Cut, CUT!" matches the phrase
"cut cut" at window start 0. -/
theorem search_reports_every_match_witness :
    ("cut cut" ∈ ["cut cut"]) ∧
    1 ≤ (pySplitWs (pyLower "cut cut")).length ∧
    0 + (pySplitWs (pyLower "cut cut")).length ≤
      ([⟨"Cut,", 0, 1⟩, ⟨"CUT!", 1, 2⟩] : List TranscriptWord).length ∧
    windowMatches [⟨"Cut,", 0, 1⟩, ⟨"CUT!", 1, 2⟩] (pySplitWs (pyLower "cut cut"))
      0 = true ∧
    (⟨"cut cut", (pyGet [⟨"Cut,", 0, 1⟩, ⟨"CUT!", 1, 2⟩] 0).start,
      (pyGet [⟨"Cut,", 0, 1⟩, ⟨"CUT!", 1, 2⟩]
        ((0 : ℤ) + (pySplitWs (pyLower "cut cut")).length - 1)).«end», 0⟩ :
      RetakeMatch) ∈
      search_transcript_for_phrases [⟨"Cut,", 0, 1⟩, ⟨"CUT!", 1, 2⟩] ["cut cut"] :=
  ⟨by decide, by decide, by decide, by decide,
    search_reports_every_match _ _ _ 0 (by decide) (by decide) (by decide)
      (by decide)⟩

theorem clusterAux_flatten (g : ℚ) (l : List RetakeMatch)
    (cur : List RetakeMatch) (lst : RetakeMatch) :
    (clusterAux g cur lst l).flatten = cur ++ l := by
  induction l generalizing cur lst with
  | nil => simp [clusterAux]
  | cons m rest ih =>
      unfold clusterAux
      split
      · rw [ih]; simp
      · rw [List.flatten_cons, ih]; simp

/-- C10: the output of `search_transcript_for_phrases` is phrase-major, not
globally time-ordered: for two configured phrases the result is the first
phrase's matches (in strictly ascending `word_index`) followed by the second
phrase's matches; on a concrete transcript in which the first phrase occurs
later than the second, the returned starts are `[2, 0]`, not sorted by
start; and `cluster_retake_markers` re-sorts the matches by start before
grouping — the concatenation of its clusters is exactly the start-sorted
match list. -/
theorem search_phrase_major_order :
    (∀ (ws : List TranscriptWord) (p1 p2 : String),
        search_transcript_for_phrases ws [p1, p2] =
          phraseMatches ws p1 ++ phraseMatches ws p2) ∧
    (∀ (ws : List TranscriptWord) (p : String),
        List.Pairwise (fun a b => a.word_index < b.word_index)
          (phraseMatches ws p)) ∧
    ((search_transcript_for_phrases [⟨"b", 0, 1⟩, ⟨"a", 2, 3⟩]
        ["a", "b"]).map RetakeMatch.start = [2, 0]) ∧
    (¬ List.Pairwise (fun a b : RetakeMatch => a.start ≤ b.start)
        (search_transcript_for_phrases [⟨"b", 0, 1⟩, ⟨"a", 2, 3⟩] ["a", "b"])) ∧
    (∀ ms : List RetakeMatch,
        (cluster_retake_markers ms).flatten = sortMatches ms) := by
  refine ⟨?_, ?_, by decide, by decide, ?_⟩
  · intro ws p1 p2
    simp [search_transcript_for_phrases]
  · intro ws p
    unfold phraseMatches
    apply List.Pairwise.filterMap
      (S := fun a b : RetakeMatch => a.word_index < b.word_index)
    · intro a b hab x hx y hy
      split at hx
      · split at hy
        · simp only [Option.mem_def, Option.some.injEq] at hx hy
          rw [← hx, ← hy]
          exact hab
        · simp at hy
      · simp at hx
    · unfold windowStarts
      split
      · rw [List.range_eq_range']
        exact List.pairwise_lt_range' 0 _ 1
      · exact List.Pairwise.nil
  · intro ms
    unfold cluster_retake_markers
    cases hs : sortMatches ms with
    | nil => simp
    | cons m rest => rw [clusterAux_flatten]; rfl

/-! ### Coverage after `ensure_retake_coverage` (C1) -/

theorem has_phrase_cut_append (cs ext : List CutInstruction) (m : RetakeMatch)
    (h : _has_phrase_cut cs m = true) :
    _has_phrase_cut (cs ++ ext) m = true := by
  unfold _has_phrase_cut at h ⊢
  rw [List.any_append, h, Bool.true_or]

theorem has_phrase_cut_append_overlap (cs : List CutInstruction)
    (m : RetakeMatch) (c : CutInstruction)
    (hc : _cut_overlaps_range c m.start m.«end» = true) :
    _has_phrase_cut (cs ++ [c]) m = true := by
  unfold _has_phrase_cut
  rw [List.any_append]
  simp [hc]

theorem patchStep_fst (m : RetakeMatch) (lb : ℚ)
    (st : List CutInstruction × Bool × Bool) (fc : CutInstruction) :
    (patchStep m lb st fc).1 = st.1 ∨ (patchStep m lb st fc).1 = st.1 ++ [fc] := by
  obtain ⟨cs, hm, hp⟩ := st
  show (patchStep m lb (cs, hm, hp) fc).1 = cs ∨
    (patchStep m lb (cs, hm, hp) fc).1 = cs ++ [fc]
  simp only [patchStep]
  split
  · split
    · right; rfl
    · left; rfl
  · split
    · right; rfl
    · left; rfl

theorem patchStep_snd_of_not_phrase (m : RetakeMatch) (lb : ℚ)
    (st : List CutInstruction × Bool × Bool) (fc : CutInstruction)
    (hfc : ¬ fc.pattern = "retake_phrase") :
    (patchStep m lb st fc).2.2 = st.2.2 := by
  obtain ⟨cs, hm, hp⟩ := st
  show (patchStep m lb (cs, hm, hp) fc).2.2 = hp
  simp only [patchStep]
  rw [if_neg hfc]
  split
  · rfl
  · rfl

theorem patchStep_phrase (m : RetakeMatch) (lb : ℚ)
    (st : List CutInstruction × Bool × Bool) (fc : CutInstruction)
    (hfc : fc.pattern = "retake_phrase")
    (hover : _cut_overlaps_range fc m.start m.«end» = true)
    (hpi : st.2.2 = true → _has_phrase_cut st.1 m = true) :
    _has_phrase_cut (patchStep m lb st fc).1 m = true := by
  obtain ⟨cs, hm, hp⟩ := st
  simp only at hpi
  show _has_phrase_cut (patchStep m lb (cs, hm, hp) fc).1 m = true
  simp only [patchStep]
  rw [if_pos hfc]
  by_cases hb : (!hp && !(_has_phrase_cut cs m)) = true
  · rw [if_pos hb]
    exact has_phrase_cut_append_overlap cs m fc hover
  · rw [if_neg hb]
    show _has_phrase_cut cs m = true
    cases hhp : hp with
    | true => exact hpi hhp
    | false =>
        cases hq : _has_phrase_cut cs m with
        | true => rfl
        | false => rw [hhp, hq] at hb; exact absurd rfl hb

theorem patch_fold_append (m : RetakeMatch) (lb : ℚ)
    (fcs : List CutInstruction) :
    ∀ st : List CutInstruction × Bool × Bool,
      ∃ ext, (List.foldl (patchStep m lb) st fcs).1 = st.1 ++ ext := by
  induction fcs with
  | nil => exact fun st => ⟨[], by simp⟩
  | cons fc fcs ih =>
      intro st
      obtain ⟨ext, hext⟩ := ih (patchStep m lb st fc)
      rw [List.foldl_cons]
      rcases patchStep_fst m lb st fc with h | h
      · exact ⟨ext, by rw [hext, h]⟩
      · exact ⟨fc :: ext, by rw [hext, h]; simp⟩

theorem patch_pair_phrase (m : RetakeMatch) (lb q : ℚ)
    (cs : List CutInstruction) (hm0 hp0 : Bool)
    (hspan : m.start ≤ m.«end»)
    (hp0i : hp0 = true → _has_phrase_cut cs m = true) :
    _has_phrase_cut
      ((List.foldl (patchStep m lb) (cs, hm0, hp0) (markerCutPair m q)).1) m =
      true := by
  unfold markerCutPair
  rw [List.foldl_cons, List.foldl_cons, List.foldl_nil]
  apply patchStep_phrase
  · rfl
  · show _cut_overlaps_range
      { start_time := m.start, end_time := m.«end»
        reason := "Retake phrase '" ++ m.phrase ++ "'"
        confidence := 9/10, pattern := "retake_phrase"
        method := "fallback_heuristic" } m.start m.«end» = true
    unfold _cut_overlaps_range
    simp only [Bool.and_eq_true, decide_eq_true_eq]
    exact ⟨hspan, hspan⟩
  · intro h
    have hfst := patchStep_fst m lb (cs, hm0, hp0)
      { start_time := q, end_time := m.start
        reason := "Mistake before '" ++ m.phrase ++ "' (fallback heuristic)"
        confidence := 1/2, pattern := "fallback", method := "fallback_heuristic" }
    have hsnd := patchStep_snd_of_not_phrase m lb (cs, hm0, hp0)
      { start_time := q, end_time := m.start
        reason := "Mistake before '" ++ m.phrase ++ "' (fallback heuristic)"
        confidence := 1/2, pattern := "fallback", method := "fallback_heuristic" }
      (show ¬ ("fallback" = "retake_phrase") by decide)
    rw [hsnd] at h
    have hcs : _has_phrase_cut cs m = true := hp0i h
    rcases hfst with h1 | h1
    · rw [h1]; exact hcs
    · rw [h1]; exact has_phrase_cut_append cs _ m hcs

theorem generate_single_eq_pair (tw : List TranscriptWord)
    (vad : Option (List (ℚ × ℚ))) (sb : Option (List ℕ)) (m : RetakeMatch) :
    generate_fallback_cuts tw [m] vad sb =
      markerCutPair m
        ((fallbackSentenceStart tw sb m.start <|>
          fallbackVadStart vad m.start).getD (fallbackDensityStart tw m.start)) := by
  simp [generate_fallback_cuts, markerFallbackCuts]

theorem ensureAux_append (tw : List TranscriptWord)
    (vad : Option (List (ℚ × ℚ))) (sb : Option (List ℕ)) (patterns : List String) :
    ∀ (ms : List RetakeMatch) (idx : ℕ) (cs : List CutInstruction),
      ∃ ext, ensureAux tw vad sb patterns idx cs ms = cs ++ ext := by
  intro ms
  induction ms with
  | nil => exact fun idx cs => ⟨[], by simp [ensureAux]⟩
  | cons m rest ih =>
      intro idx cs
      simp only [ensureAux]
      split
      · exact ih (idx + 1) cs
      · obtain ⟨e1, he1⟩ := patch_fold_append m
          (pattern_min_lookback (patterns.getD idx "unknown"))
          (generate_fallback_cuts tw [m] vad sb)
          (cs, _has_mistake_cut cs m
            (pattern_min_lookback (patterns.getD idx "unknown")),
            _has_phrase_cut cs m)
        obtain ⟨e2, he2⟩ := ih (idx + 1) _
        exact ⟨e1 ++ e2, by rw [he2, he1]; simp⟩

theorem ensureAux_phrase (tw : List TranscriptWord)
    (vad : Option (List (ℚ × ℚ))) (sb : Option (List ℕ)) (patterns : List String) :
    ∀ (ms : List RetakeMatch) (idx : ℕ) (cs : List CutInstruction),
      (∀ m ∈ ms, m.start ≤ m.«end») →
      ∀ m ∈ ms, _has_phrase_cut (ensureAux tw vad sb patterns idx cs ms) m = true := by
  intro ms
  induction ms with
  | nil => intro idx cs _ m hm; exact absurd hm (List.not_mem_nil m)
  | cons m0 rest ih =>
      intro idx cs hspan m hm
      simp only [ensureAux]
      split
      · rename_i hcond
        rcases List.mem_cons.mp hm with rfl | hm'
        · have hp0 : _has_phrase_cut cs m = true := by
            have h2 := hcond
            simp only [Bool.and_eq_true] at h2
            exact h2.2
          obtain ⟨ext, hext⟩ := ensureAux_append tw vad sb patterns rest (idx + 1) cs
          rw [hext]
          exact has_phrase_cut_append cs ext m hp0
        · exact ih (idx + 1) cs (fun x hx => hspan x (List.mem_cons_of_mem _ hx)) m hm'
      · rw [generate_single_eq_pair tw vad sb m0]
        rcases List.mem_cons.mp hm with rfl | hm'
        · have hstep := patch_pair_phrase m
            (pattern_min_lookback (patterns.getD idx "unknown"))
            ((fallbackSentenceStart tw sb m.start <|>
              fallbackVadStart vad m.start).getD
              (fallbackDensityStart tw m.start)) cs
            (_has_mistake_cut cs m
              (pattern_min_lookback (patterns.getD idx "unknown")))
            (_has_phrase_cut cs m)
            (hspan m (List.mem_cons_self m rest))
            (fun h => h)
          obtain ⟨ext, hext⟩ := ensureAux_append tw vad sb patterns rest (idx + 1) _
          rw [hext]
          exact has_phrase_cut_append _ ext m hstep
        · exact ih (idx + 1) _ (fun x hx => hspan x (List.mem_cons_of_mem _ hx)) m hm'

theorem markerCutPair_kind (m : RetakeMatch) (q : ℚ) :
    ∀ c ∈ markerCutPair m q, c.cut_kind = none := by
  intro c hc
  unfold markerCutPair at hc
  rcases List.mem_cons.mp hc with rfl | hc'
  · rfl
  · rcases List.mem_cons.mp hc' with rfl | hc''
    · rfl
    · exact absurd hc'' (List.not_mem_nil c)

theorem patch_fold_kind (m : RetakeMatch) (lb : ℚ) (fcs : List CutInstruction)
    (hfcs : ∀ fc ∈ fcs, fc.cut_kind = none) :
    ∀ st : List CutInstruction × Bool × Bool,
      (∀ c ∈ st.1, c.cut_kind = none) →
      ∀ c ∈ (List.foldl (patchStep m lb) st fcs).1, c.cut_kind = none := by
  induction fcs with
  | nil => intro st hst c hc; exact hst c hc
  | cons fc fcs ih =>
      intro st hst c hc
      rw [List.foldl_cons] at hc
      refine ih (fun x hx => hfcs x (List.mem_cons_of_mem _ hx))
        (patchStep m lb st fc) ?_ c hc
      intro x hx
      rcases patchStep_fst m lb st fc with h | h
      · rw [h] at hx; exact hst x hx
      · rw [h] at hx
        rcases List.mem_append.mp hx with hx' | hx'
        · exact hst x hx'
        · rw [List.mem_singleton.mp hx']
          exact hfcs fc (List.mem_cons_self fc fcs)

theorem ensureAux_kind (tw : List TranscriptWord)
    (vad : Option (List (ℚ × ℚ))) (sb : Option (List ℕ)) (patterns : List String) :
    ∀ (ms : List RetakeMatch) (idx : ℕ) (cs : List CutInstruction),
      (∀ c ∈ cs, c.cut_kind = none) →
      ∀ c ∈ ensureAux tw vad sb patterns idx cs ms, c.cut_kind = none := by
  intro ms
  induction ms with
  | nil => intro idx cs hcs c hc; exact hcs c hc
  | cons m0 rest ih =>
      intro idx cs hcs c hc
      simp only [ensureAux] at hc
      split at hc
      · exact ih (idx + 1) cs hcs c hc
      · rw [generate_single_eq_pair tw vad sb m0] at hc
        exact ih (idx + 1) _
          (patch_fold_kind m0 _ _ (markerCutPair_kind m0 _) _ hcs) c hc

/-- C1 (amended): after `ensure_retake_coverage`, every original retake
match's span `[start, end]` INTERSECTS the union of the resulting cuts: some
cut in the result overlaps the marker span (for matches with `start ≤ end`
and inputs whose cuts carry no `cut_kind` tag, as all cuts produced by this
module do).  Containment of the whole span is not guaranteed — see the
counterexample. -/
theorem ensure_retake_coverage_overlaps (cuts : List CutInstruction)
    (tw : List TranscriptWord) (rms : List RetakeMatch)
    (patterns : List String) (vad : Option (List (ℚ × ℚ)))
    (sb : Option (List ℕ))
    (hspan : ∀ m ∈ rms, m.start ≤ m.«end»)
    (hkind : ∀ c ∈ cuts, c.cut_kind = none) :
    ∀ m ∈ rms,
      ∃ c ∈ ensure_retake_coverage cuts tw rms patterns vad sb,
        c.start_time ≤ m.«end» ∧ m.start ≤ c.end_time := by
  intro m hm
  unfold ensure_retake_coverage
  have hne : ¬ rms = [] := by
    intro h; rw [h] at hm; exact List.not_mem_nil m hm
  rw [if_neg hne]
  have h1 := ensureAux_phrase tw vad sb patterns rms 0 cuts hspan m hm
  have h2 := ensureAux_kind tw vad sb patterns rms 0 cuts hkind
  unfold _has_phrase_cut at h1
  rw [List.any_eq_true] at h1
  obtain ⟨c, hc, hcb⟩ := h1
  have hcb' : (c.cut_kind == some "retake_phrase") = true ∨
      _cut_overlaps_range c m.start m.«end» = true := by
    simpa [Bool.or_eq_true] using hcb
  rcases hcb' with hk | hov
  · have := h2 c hc
    rw [this] at hk
    simp at hk
  · unfold _cut_overlaps_range at hov
    simp only [Bool.and_eq_true, decide_eq_true_eq] at hov
    exact ⟨c, hc, hov.1, hov.2⟩

/-- Counterexample to C1 as stated: span CONTAINMENT fails.  A single
pre-existing cut `[0, 10]` merely touches the marker span `[10, 11]`;
`ensure_retake_coverage` accepts it as both mistake and phrase coverage and
adds nothing, leaving the span point `10.5` uncovered. -/
theorem ensure_retake_coverage_no_containment :
    ¬ (∀ m ∈ ([⟨"cut cut", 10, 11, 0⟩] : List RetakeMatch), ∀ x : ℚ,
        m.start ≤ x → x ≤ m.«end» →
        ∃ c ∈ ensure_retake_coverage [⟨0, 10, "r", 1, "p", "llm", none, none⟩]
            [] [⟨"cut cut", 10, 11, 0⟩] ["quick_fix"] none none,
          c.start_time ≤ x ∧ x ≤ c.end_time) := by
  intro h
  have hres : ensure_retake_coverage [⟨0, 10, "r", 1, "p", "llm", none, none⟩]
      [] [⟨"cut cut", 10, 11, 0⟩] ["quick_fix"] none none =
      [⟨0, 10, "r", 1, "p", "llm", none, none⟩] := by decide
  obtain ⟨c, hc, h1, h2⟩ :=
    h ⟨"cut cut", 10, 11, 0⟩ (List.mem_singleton.mpr rfl) (21/2)
      (by norm_num) (by norm_num)
  rw [hres] at hc
  rw [List.mem_singleton.mp hc] at h2
  norm_num at h2

/-- Witness for C1 (amended) at a concrete input: the sample marker with no
pre-existing cuts. -/
theorem ensure_retake_coverage_overlaps_witness :
    (∀ m ∈ ([sampleMarker] : List RetakeMatch), m.start ≤ m.«end») ∧
    (∀ c ∈ ([] : List CutInstruction), c.cut_kind = none) ∧
    (∀ m ∈ ([sampleMarker] : List RetakeMatch),
      ∃ c ∈ ensure_retake_coverage [] sampleTw [sampleMarker] ["full_redo"]
          none none,
        c.start_time ≤ m.«end» ∧ m.start ≤ c.end_time) :=
  ⟨by decide, by decide,
    ensure_retake_coverage_overlaps [] sampleTw [sampleMarker] ["full_redo"]
      none none (by decide) (by decide)⟩

/-! ### Keep-segment partition (C2) -/

theorem keepSegmentsFrom_cover (duration : ℚ) (l : List CutInstruction) :
    ∀ (current x : ℚ), current ≤ x → x < duration →
      (∃ k ∈ keepSegmentsFrom duration current l, k.1 ≤ x ∧ x ≤ k.2) ∨
      (∃ c ∈ l, c.start_time ≤ x ∧ x ≤ c.end_time) := by
  induction l with
  | nil =>
      intro current x hcx hxd
      left
      refine ⟨(current, duration), ?_, hcx, le_of_lt hxd⟩
      simp only [keepSegmentsFrom]
      rw [if_pos (lt_of_le_of_lt hcx hxd)]
      exact List.mem_singleton.mpr rfl
  | cons c rest ih =>
      intro current x hcx hxd
      by_cases hin : c.start_time ≤ x ∧ x ≤ c.end_time
      · exact Or.inr ⟨c, List.mem_cons_self c rest, hin⟩
      · simp only [keepSegmentsFrom]
        rcases not_and_or.mp hin with hlt | hgt
        · have hx : x < c.start_time := lt_of_not_ge hlt
          have hcur : current < c.start_time := lt_of_le_of_lt hcx hx
          left
          refine ⟨(current, c.start_time), ?_, hcx, le_of_lt hx⟩
          rw [if_pos hcur]
          exact List.mem_append_left _ (List.mem_singleton.mpr rfl)
        · have hx : c.end_time < x := lt_of_not_ge hgt
          have hmx : max current c.end_time ≤ x := max_le hcx (le_of_lt hx)
          rcases ih (max current c.end_time) x hmx hxd with h | h
          · obtain ⟨k, hk, hkx⟩ := h
            exact Or.inl ⟨k, List.mem_append_right _ hk, hkx⟩
          · obtain ⟨c', hc', hcx'⟩ := h
            exact Or.inr ⟨c', List.mem_cons_of_mem _ hc', hcx'⟩

theorem keepSegmentsFrom_top (duration : ℚ) (l : List CutInstruction) :
    ∀ current : ℚ, current < duration →
      (∀ c ∈ l, c.start_time ≤ c.end_time ∧ c.end_time ≤ duration) →
      (∃ k ∈ keepSegmentsFrom duration current l, k.1 ≤ duration ∧ duration ≤ k.2) ∨
      (∃ c ∈ l, c.start_time ≤ duration ∧ duration ≤ c.end_time) := by
  induction l with
  | nil =>
      intro current hcd _
      left
      refine ⟨(current, duration), ?_, le_of_lt hcd, le_refl duration⟩
      simp only [keepSegmentsFrom]
      rw [if_pos hcd]
      exact List.mem_singleton.mpr rfl
  | cons c rest ih =>
      intro current hcd hb
      simp only [keepSegmentsFrom]
      by_cases h2 : max current c.end_time < duration
      · rcases ih (max current c.end_time) h2
            (fun x hx => hb x (List.mem_cons_of_mem _ hx)) with h | h
        · obtain ⟨k, hk, hkx⟩ := h
          exact Or.inl ⟨k, List.mem_append_right _ hk, hkx⟩
        · obtain ⟨c', hc', hcx'⟩ := h
          exact Or.inr ⟨c', List.mem_cons_of_mem _ hc', hcx'⟩
      · have hdm : duration ≤ max current c.end_time := not_lt.mp h2
        have hce : duration ≤ c.end_time := by
          rcases le_max_iff.mp hdm with h | h
          · exact absurd h (not_le_of_lt hcd)
          · exact h
        have hcb := hb c (List.mem_cons_self c rest)
        exact Or.inr ⟨c, List.mem_cons_self c rest,
          le_trans hcb.1 hcb.2, hce⟩

theorem keepSegmentsFrom_bounds (duration : ℚ) (l : List CutInstruction) :
    ∀ current : ℚ, 0 ≤ current →
      (∀ c ∈ l, c.start_time ≤ duration) →
      ∀ k ∈ keepSegmentsFrom duration current l,
        0 ≤ k.1 ∧ k.2 ≤ duration ∧ k.1 < k.2 := by
  induction l with
  | nil =>
      intro current hcur _ k hk
      simp only [keepSegmentsFrom] at hk
      split at hk
      · rw [List.mem_singleton.mp hk]
        exact ⟨hcur, le_refl _, by assumption⟩
      · exact absurd hk (List.not_mem_nil k)
  | cons c rest ih =>
      intro current hcur hsd k hk
      simp only [keepSegmentsFrom] at hk
      rcases List.mem_append.mp hk with hpre | hrest
      · split at hpre
        · rw [List.mem_singleton.mp hpre]
          exact ⟨hcur, hsd c (List.mem_cons_self c rest), by assumption⟩
        · exact absurd hpre (List.not_mem_nil k)
      · exact ih (max current c.end_time) (le_trans hcur (le_max_left _ _))
          (fun x hx => hsd x (List.mem_cons_of_mem _ hx)) k hrest

theorem keepSegmentsFrom_fst_ge (duration : ℚ) (l : List CutInstruction) :
    ∀ current : ℚ, ∀ k ∈ keepSegmentsFrom duration current l, current ≤ k.1 := by
  induction l with
  | nil =>
      intro current k hk
      simp only [keepSegmentsFrom] at hk
      split at hk
      · rw [List.mem_singleton.mp hk]
      · exact absurd hk (List.not_mem_nil k)
  | cons c rest ih =>
      intro current k hk
      simp only [keepSegmentsFrom] at hk
      rcases List.mem_append.mp hk with hpre | hrest
      · split at hpre
        · rw [List.mem_singleton.mp hpre]
        · exact absurd hpre (List.not_mem_nil k)
      · exact le_trans (le_max_left _ _) (ih (max current c.end_time) k hrest)

theorem keepSegmentsFrom_pairwise (duration : ℚ) (l : List CutInstruction) :
    ∀ current : ℚ, (∀ c ∈ l, c.start_time < c.end_time) →
      List.Pairwise (fun k1 k2 : ℚ × ℚ => k1.2 < k2.1)
        (keepSegmentsFrom duration current l) := by
  induction l with
  | nil =>
      intro current _
      simp only [keepSegmentsFrom]
      split
      · exact List.pairwise_singleton _ _
      · exact List.Pairwise.nil
  | cons c rest ih =>
      intro current hlt
      simp only [keepSegmentsFrom]
      refine List.pairwise_append.mpr ⟨?_, ?_, ?_⟩
      · split
        · exact List.pairwise_singleton _ _
        · exact List.Pairwise.nil
      · exact ih (max current c.end_time)
          (fun x hx => hlt x (List.mem_cons_of_mem _ hx))
      · intro k1 hk1 k2 hk2
        have hf := keepSegmentsFrom_fst_ge duration rest (max current c.end_time)
          k2 hk2
        split at hk1
        · rw [List.mem_singleton.mp hk1]
          calc c.start_time < c.end_time := hlt c (List.mem_cons_self c rest)
            _ ≤ max current c.end_time := le_max_right _ _
            _ ≤ k2.1 := hf
        · exact absurd hk1 (List.not_mem_nil k1)

/-- C2 (amended): for a duration `D > 0` and cuts each lying within `[0, D]`
with `start_time < end_time`, the keep segments computed by
`apply_cuts_to_video` partition: a point lies in `[0, D]` exactly when it
lies in some keep segment or in some cut, and the keep segments are
pairwise disjoint (each ends strictly before the next begins).
Unrestricted cut lists violate the partition — see the counterexample. -/
theorem apply_cuts_keep_segments_partition (cuts : List CutInstruction)
    (D : ℚ) (hD : 0 < D)
    (hc : ∀ c ∈ cuts, 0 ≤ c.start_time ∧ c.start_time < c.end_time ∧
      c.end_time ≤ D) :
    (∀ x : ℚ, (0 ≤ x ∧ x ≤ D) ↔
      ((∃ k ∈ apply_cuts_keep_segments cuts D, k.1 ≤ x ∧ x ≤ k.2) ∨
       (∃ c ∈ cuts, c.start_time ≤ x ∧ x ≤ c.end_time))) ∧
    List.Pairwise (fun k1 k2 : ℚ × ℚ => k1.2 < k2.1)
      (apply_cuts_keep_segments cuts D) := by
  have hmem : ∀ c : CutInstruction, c ∈ sortCuts cuts ↔ c ∈ cuts :=
    fun c => (List.perm_insertionSort cutLE cuts).mem_iff
  have hcs : ∀ c ∈ sortCuts cuts, 0 ≤ c.start_time ∧
      c.start_time < c.end_time ∧ c.end_time ≤ D :=
    fun c h => hc c ((hmem c).mp h)
  unfold apply_cuts_keep_segments
  constructor
  · intro x
    constructor
    · rintro ⟨hx0, hxD⟩
      rcases eq_or_lt_of_le hxD with rfl | hlt
      · rcases keepSegmentsFrom_top x (sortCuts cuts) 0 hD
            (fun c h => ⟨le_of_lt (hcs c h).2.1, (hcs c h).2.2⟩) with h | h
        · exact Or.inl h
        · obtain ⟨c, hcm, hx⟩ := h
          exact Or.inr ⟨c, (hmem c).mp hcm, hx⟩
      · rcases keepSegmentsFrom_cover D (sortCuts cuts) 0 x hx0 hlt with h | h
        · exact Or.inl h
        · obtain ⟨c, hcm, hx⟩ := h
          exact Or.inr ⟨c, (hmem c).mp hcm, hx⟩
    · rintro (⟨k, hk, h1, h2⟩ | ⟨c, hcm, h1, h2⟩)
      · have hb := keepSegmentsFrom_bounds D (sortCuts cuts) 0 (le_refl 0)
          (fun c h => le_trans (le_of_lt (hcs c h).2.1) (hcs c h).2.2) k hk
        exact ⟨le_trans hb.1 h1, le_trans h2 hb.2.1⟩
      · have hcc := hc c hcm
        exact ⟨le_trans hcc.1 h1, le_trans h2 hcc.2.2⟩
  · exact keepSegmentsFrom_pairwise D (sortCuts cuts) 0
      (fun c h => (hcs c h).2.1)

/-- Counterexample to C2 as stated: for an arbitrary cut list and duration
the partition fails.  With the single cut `[2, 15]` and duration `D = 10`,
the point `12` lies in a cut but not in `[0, 10]`, so the union of keep
segments and cuts is not `[0, D]`. -/
theorem apply_cuts_keep_segments_partition_cex :
    ¬ (∀ x : ℚ, (0 ≤ x ∧ x ≤ 10) ↔
      ((∃ k ∈ apply_cuts_keep_segments
          [⟨2, 15, "r", 1, "p", "llm", none, none⟩] 10, k.1 ≤ x ∧ x ≤ k.2) ∨
       (∃ c ∈ ([⟨2, 15, "r", 1, "p", "llm", none, none⟩] : List CutInstruction),
          c.start_time ≤ x ∧ x ≤ c.end_time))) := by
  intro h
  have h12 := (h 12).mpr
    (Or.inr ⟨⟨2, 15, "r", 1, "p", "llm", none, none⟩,
      List.mem_singleton.mpr rfl, by norm_num, by norm_num⟩)
  norm_num at h12

/-- Witness for C2 (amended) at a concrete input: one cut `[2, 5]` inside
duration 10. -/
theorem apply_cuts_keep_segments_partition_witness :
    (0 : ℚ) < 10 ∧
    (∀ c ∈ ([⟨2, 5, "r", 1, "p", "llm", none, none⟩] : List CutInstruction),
      0 ≤ c.start_time ∧ c.start_time < c.end_time ∧ c.end_time ≤ 10) ∧
    ((∀ x : ℚ, (0 ≤ x ∧ x ≤ 10) ↔
      ((∃ k ∈ apply_cuts_keep_segments
          [⟨2, 5, "r", 1, "p", "llm", none, none⟩] 10, k.1 ≤ x ∧ x ≤ k.2) ∨
       (∃ c ∈ ([⟨2, 5, "r", 1, "p", "llm", none, none⟩] : List CutInstruction),
          c.start_time ≤ x ∧ x ≤ c.end_time))) ∧
    List.Pairwise (fun k1 k2 : ℚ × ℚ => k1.2 < k2.1)
      (apply_cuts_keep_segments [⟨2, 5, "r", 1, "p", "llm", none, none⟩] 10)) :=
  ⟨by norm_num, by decide,
    apply_cuts_keep_segments_partition _ 10 (by norm_num) (by decide)⟩

end VibeWorkflow
